import Mathlib

/-!
Shallow embedding of the core logic of `configSDC.py` (class `CalendarManager`):
cell cleaning (`clean_spreadsheet_data`), row grouping (`group_calendar_data`),
time-slot consolidation (`process_opening_hours`), the pure guard/shape of
`read_spreadsheet`, and the pure payload construction of `create_opening_hours`.

Conventions of the embedding:
* Python strings are Lean `String`s; the Unicode-sensitive Python primitives
  (`str.strip`, `str.lower`, `str.isdigit`) are modelled on their ASCII
  behaviour, which is the behaviour the cleaned spreadsheet cells exercise.
* Python list indexing, which can raise `IndexError`, is modelled with
  `List.get?`; a function whose body contains a fallible index returns
  `Option`, and `none` models an uncaught exception.
* Python dicts preserve insertion order, so the `time_slots` dict is an
  insertion-ordered association list.
-/

namespace ConfigSDC

/-- ASCII whitespace, the characters `str.strip` removes for the cells at hand
(space, tab, newline, carriage return, vertical tab, form feed). -/
def isPySpace (c : Char) : Bool :=
  c = ' ' || c = '\t' || c = '\n' || c = '\r' || c = '\x0b' || c = '\x0c'

/-- Drop leading and trailing whitespace from a character list. -/
def stripList (l : List Char) : List Char :=
  ((l.dropWhile isPySpace).reverse.dropWhile isPySpace).reverse

/-- Model of Python `str.strip()`. -/
def pystrip (s : String) : String :=
  ⟨stripList s.data⟩

/-- Model of Python `str.lower()` (ASCII case folding). -/
def pylower (s : String) : String :=
  ⟨s.data.map Char.toLower⟩

/-- Decimal digit test for a character. -/
def isDigitChar (c : Char) : Bool :=
  '0' ≤ c && c ≤ '9'

/-- Model of Python `str.isdigit()` for ASCII content: nonempty and all
characters are decimal digits. -/
def pyisdigit (s : String) : Bool :=
  !s.data.isEmpty && s.data.all isDigitChar

/-- Value of `int(s)` on a string of decimal digits. -/
def parseNat (s : String) : Nat :=
  s.data.foldl (fun n c => n * 10 + (c.toNat - 48)) 0

/-- Two-digit hour as accepted by `strptime`'s `%H` (regex `2[0-3]|[0-1]\d`). -/
def hour2 (a b : Char) : Bool :=
  (a = '2' && ('0' ≤ b && b ≤ '3')) || ((a = '0' || a = '1') && isDigitChar b)

/-- Two-digit minute as accepted by `strptime`'s `%M` (regex `[0-5]\d`). -/
def min2 (a b : Char) : Bool :=
  ('0' ≤ a && a ≤ '5') && isDigitChar b

/-- Model of `datetime.strptime(s, '%H:%M')` succeeding: the whole string
matches `(2[0-3]|[0-1]\d|\d):([0-5]\d|\d)`, i.e. a 1- or 2-digit hour 0..23,
a colon, and a 1- or 2-digit minute 0..59, with nothing left over. -/
def validHM (s : String) : Bool :=
  match s.data with
  | [a, b, c, d, e] => c = ':' && hour2 a b && min2 d e
  | [a, b, c, d] =>
      (b = ':' && isDigitChar a && min2 c d) ||
      (c = ':' && hour2 a b && isDigitChar d)
  | [a, b, c] => b = ':' && isDigitChar a && isDigitChar c
  | _ => false

/-- Model of `CalendarManager.is_valid_time`: `True` when the string
lowercases to `"chiuso"` or parses as a `%H:%M` time. -/
def is_valid_time (time_str : String) : Bool :=
  if pylower time_str = "chiuso" then true else validHM time_str

/-- One cell of `CalendarManager.clean_spreadsheet_data`: strip, then map any
case variant of `"chiuso"`, `"closed"` or the empty string to `"Chiuso"`. -/
def cleanCell (cell : String) : String :=
  let cell_str := pystrip cell
  if pylower cell_str = "chiuso" ∨ pylower cell_str = "closed" ∨
      pylower cell_str = "" then "Chiuso" else cell_str

/-- Model of `CalendarManager.clean_spreadsheet_data`: clean every cell of
every row. -/
def clean_spreadsheet_data (data : List (List String)) : List (List String) :=
  data.map (fun row => row.map cleanCell)

/-- The grouping loop of `CalendarManager.group_calendar_data`, with the
mutable `current_name` / `current_group` / `self.calendar_groups` state made
explicit.  `row[0]` is a fallible index, hence the `Option`. -/
def groupLoop :
    List (List String) → String → List (List String) →
    List (String × List (List String)) →
    Option (List (String × List (List String)))
  | [], current_name, current_group, acc =>
      some (if current_name ≠ "" then acc ++ [(current_name, current_group)] else acc)
  | row :: rest, current_name, current_group, acc =>
      match row.get? 0 with
      | none => none
      | some c0 =>
          if pystrip c0 = "" ∨ pystrip c0 = "Chiuso" then
            groupLoop rest current_name
              (if current_name ≠ "" then current_group ++ [row] else current_group) acc
          else if current_name ≠ "" then
            groupLoop rest c0 [row] (acc ++ [(current_name, current_group)])
          else
            groupLoop rest c0 [row] acc

/-- Model of `CalendarManager.group_calendar_data`: partition rows into named
groups; `none` models the `IndexError` raised by `row[0]` on a zero-length
row. -/
def group_calendar_data (data : List (List String)) :
    Option (List (String × List (List String))) :=
  groupLoop data "" [] []

/-- A `time_slots` key: `(begin_hour, end_hour, str(meeting_min), "no")`. -/
abbrev SlotKey := String × String × String × String

/-- The `time_slots` dict: insertion-ordered association list from key to the
list of weekday numbers. -/
abbrev Slots := List (SlotKey × List Nat)

/-- The dict update of `process_opening_hours`: create the key's day list if
absent, then append the day only if not already present. -/
def addDay : Slots → SlotKey → Nat → Slots
  | [], key, d => [(key, [d])]
  | (k, ds) :: rest, key, d =>
      if k = key then (k, if d ∈ ds then ds else ds ++ [d]) :: rest
      else (k, ds) :: addDay rest key d

/-- Day list stored under a key (empty when the key is absent). -/
def daysLookup : Slots → SlotKey → List Nat
  | [], _ => []
  | (k, ds) :: rest, key => if k = key then ds else daysLookup rest key

/-- The fixed `days_mapping` of `process_opening_hours`:
(weekday number, first column of its 3-cell band). -/
def days_mapping : List (Nat × Nat) :=
  [(1, 2), (2, 5), (3, 8), (4, 11), (5, 14), (6, 17)]

/-- One `(day_num, day_col)` iteration of `process_opening_hours`: bounds
guard, three cell reads (fallible, though guarded), closed/empty skip, time
validation skip, duration defaulting, dict update. -/
def processDay (slots : Slots) (row : List String) (day_num day_col : Nat) :
    Option Slots :=
  if row.length ≤ day_col + 2 then some slots
  else
    (row.get? day_col).bind fun c0 =>
    (row.get? (day_col + 1)).bind fun c1 =>
    (row.get? (day_col + 2)).bind fun c2 =>
      let begin_hour := pystrip c0
      let end_hour := pystrip c1
      let meeting_minutes := pystrip c2
      some (
        if begin_hour = "Chiuso" ∨ end_hour = "Chiuso" ∨
            begin_hour = "" ∨ end_hour = "" then slots
        else if ¬ (is_valid_time begin_hour = true ∧ is_valid_time end_hour = true) then
          slots
        else
          addDay slots
            (begin_hour, end_hour,
              toString (if pyisdigit meeting_minutes then parseNat meeting_minutes else 30),
              "no")
            day_num)

/-- Run `processDay` for one row over a list of `(day_num, day_col)` pairs,
propagating a raised exception as `none`. -/
def processRow (slots : Slots) (row : List String) :
    List (Nat × Nat) → Option Slots
  | [] => some slots
  | (day_num, day_col) :: rest =>
      (processDay slots row day_num day_col).bind fun slots2 =>
        processRow slots2 row rest

/-- The outer row loop of `process_opening_hours`. -/
def processRows : Slots → List (List String) → Option Slots
  | slots, [] => some slots
  | slots, row :: rest =>
      (processRow slots row days_mapping).bind fun slots2 => processRows slots2 rest

/-- Model of `CalendarManager.process_opening_hours`: consolidate one group's
rows into the `time_slots` table, starting from the empty dict. -/
def process_opening_hours (group : List (List String)) : Option Slots :=
  processRows [] group

/-- The guard and pure shape of `CalendarManager.read_spreadsheet`: abort
(returning `False`, no groups) when the raw sheet has fewer than 2 rows,
otherwise drop the first 2 rows, clean, and group.  A grouping `IndexError`
is caught by the surrounding `except` and also yields `False`. -/
def read_spreadsheet (data : List (List String)) :
    Bool × List (String × List (List String)) :=
  if data.isEmpty ∨ data.length < 2 then (false, [])
  else
    match group_calendar_data (clean_spreadsheet_data (data.drop 2)) with
    | none => (false, [])
    | some groups => (true, groups)

/-- The opening-hours payload built by `create_opening_hours` for one slot. -/
structure OpeningHoursRule where
  name : String
  start_date : String
  end_date : String
  days_of_week : List Nat
  begin_hour : String
  end_hour : String
  is_moderated : Bool
  meeting_minutes : Nat
  interval_minutes : Nat
  meeting_queue : Nat
deriving DecidableEq

/-- Ascending insertion, for the model of Python `sorted`. -/
def insertAsc (n : Nat) : List Nat → List Nat
  | [] => [n]
  | m :: rest => if n ≤ m then n :: m :: rest else m :: insertAsc n rest

/-- Model of Python `sorted` on a list of naturals. -/
def pysorted (l : List Nat) : List Nat :=
  l.foldr insertAsc []

/-- The pure part of `CalendarManager.create_opening_hours`: the JSON payload
constructed for each `time_slots` entry, in dict order.  `start_date` and
`end_date` are the run-scoped timestamps computed at initialization. -/
def make_opening_hours_rules (start_date end_date : String) (time_slots : Slots) :
    List OpeningHoursRule :=
  time_slots.map (fun kv =>
    { name := "Orario " ++ kv.1.1 ++ "-" ++ kv.1.2.1
      start_date := start_date
      end_date := end_date
      days_of_week := pysorted kv.2
      begin_hour := kv.1.1
      end_hour := kv.1.2.1
      is_moderated := decide (pylower kv.1.2.2.2 = "si")
      meeting_minutes := parseNat kv.1.2.2.1
      interval_minutes := 0
      meeting_queue := 1 })

/-! ### Helper lemmas about stripping and lowering -/

theorem dropWhile_len_le {α : Type} (p : α → Bool) (l : List α) :
    (l.dropWhile p).length ≤ l.length := by
  induction l with
  | nil => simp
  | cons a t ih =>
    by_cases h : p a
    · rw [List.dropWhile_cons_of_pos h]
      exact Nat.le_trans ih (Nat.le_succ _)
    · rw [List.dropWhile_cons_of_neg h]

/-- If a list is a fixed point of `dropWhile p`, so is each of its prefixes. -/
theorem dropWhile_self_of_append {α : Type} {p : α → Bool} {x y z : List α}
    (hx : x.dropWhile p = x) (hxyz : x = y ++ z) : y.dropWhile p = y := by
  cases y with
  | nil => rfl
  | cons a t =>
    have ha : ¬ p a = true := by
      intro hpa
      have h1 : x.dropWhile p = (t ++ z).dropWhile p := by
        rw [hxyz, List.cons_append, List.dropWhile_cons_of_pos hpa]
      have h2 : x.length = ((t ++ z).dropWhile p).length := by rw [← h1, hx]
      have h3 : ((t ++ z).dropWhile p).length ≤ (t ++ z).length :=
        dropWhile_len_le _ _
      rw [hxyz] at h2
      simp [List.length_append] at h2 h3
      omega
    rw [List.dropWhile_cons_of_neg ha]

theorem stripList_idem (l : List Char) : stripList (stripList l) = stripList l := by
  have hA : (l.dropWhile isPySpace).dropWhile isPySpace = l.dropWhile isPySpace :=
    List.dropWhile_idempotent isPySpace l
  obtain ⟨t, ht⟩ := List.rdropWhile_prefix isPySpace (l.dropWhile isPySpace)
  have h2 : (List.rdropWhile isPySpace (l.dropWhile isPySpace)).dropWhile isPySpace =
      List.rdropWhile isPySpace (l.dropWhile isPySpace) :=
    dropWhile_self_of_append hA ht.symm
  calc stripList (stripList l)
      = List.rdropWhile isPySpace
          ((List.rdropWhile isPySpace (l.dropWhile isPySpace)).dropWhile isPySpace) := rfl
    _ = List.rdropWhile isPySpace (List.rdropWhile isPySpace (l.dropWhile isPySpace)) := by
          rw [h2]
    _ = List.rdropWhile isPySpace (l.dropWhile isPySpace) :=
          List.rdropWhile_idempotent isPySpace _
    _ = stripList l := rfl

theorem pystrip_idem (s : String) : pystrip (pystrip s) = pystrip s := by
  show String.mk (stripList (String.mk (stripList s.data)).data) = String.mk (stripList s.data)
  exact congrArg String.mk (stripList_idem s.data)

theorem pylower_eq_empty_iff (s : String) : pylower s = "" ↔ s = "" := by
  obtain ⟨d⟩ := s
  simp [pylower, String.ext_iff]

theorem cleanCell_idem (c : String) : cleanCell (cleanCell c) = cleanCell c := by
  by_cases h : pylower (pystrip c) = "chiuso" ∨ pylower (pystrip c) = "closed" ∨
      pylower (pystrip c) = ""
  · have h1 : cleanCell c = "Chiuso" := by
      rcases h with h | h | h <;> simp [cleanCell, h]
    rw [h1]
    decide
  · have h1 : cleanCell c = pystrip c := by simp [cleanCell, h]
    rw [h1]
    simp [cleanCell, pystrip_idem, h]

/-- One cleaned row is a fixed point of cleaning. -/
theorem cleanRow_idem (row : List String) :
    (row.map cleanCell).map cleanCell = row.map cleanCell := by
  induction row with
  | nil => rfl
  | cons a t ih => simp [cleanCell_idem, ih]

/-- C8: `clean_spreadsheet_data` is idempotent: for every input grid,
cleaning the output of cleaning yields the same output. -/
theorem clean_spreadsheet_data_idem (data : List (List String)) :
    clean_spreadsheet_data (clean_spreadsheet_data data) = clean_spreadsheet_data data := by
  induction data with
  | nil => rfl
  | cons row rest ih =>
    simpa [clean_spreadsheet_data] using
      And.intro (cleanRow_idem row) (by simpa [clean_spreadsheet_data] using ih)

/-- C10: `clean_spreadsheet_data` preserves the grid shape (same number of
rows, each row keeps its number of cells) and acts cell-wise: each output
cell is the trimmed input cell, except that a cell whose trimmed form is
case-insensitively `"chiuso"`, `"closed"`, or empty becomes `"Chiuso"`. -/
theorem clean_spreadsheet_data_shape (data : List (List String)) :
    (clean_spreadsheet_data data).length = data.length ∧
    (∀ i, ((clean_spreadsheet_data data).get? i).map List.length =
      (data.get? i).map List.length) ∧
    (∀ i, (clean_spreadsheet_data data).get? i =
      (data.get? i).map (fun row => row.map cleanCell)) ∧
    (∀ c, cleanCell c =
      if pylower (pystrip c) = "chiuso" ∨ pylower (pystrip c) = "closed" ∨
          pystrip c = "" then "Chiuso" else pystrip c) := by
  refine ⟨by simp [clean_spreadsheet_data], ?_, ?_, ?_⟩
  · intro i
    simp [clean_spreadsheet_data, List.get?_map]
    cases h : data[i]? <;> simp [h]
  · intro i
    simp [clean_spreadsheet_data, List.get?_map]
  · intro c
    simp only [cleanCell, pylower_eq_empty_iff]

/-- C5: on the cleaned row sequence whose name columns are `"A"`, `""`,
`"Chiuso"`, `"B"`, `group_calendar_data` produces exactly the two groups
`("A", first three rows)` and `("B", last row)`, in that order. -/
theorem group_calendar_data_two_groups :
    group_calendar_data [["A", "x"], ["", "y"], ["Chiuso", "z"], ["B", "w"]] =
      some [("A", [["A", "x"], ["", "y"], ["Chiuso", "z"]]), ("B", [["B", "w"]])] := by
  rfl

/-! ### Totality of grouping and consolidation -/

theorem groupLoop_eq_none_iff :
    ∀ (rows : List (List String)) (name : String) (grp : List (List String))
      (acc : List (String × List (List String))),
    groupLoop rows name grp acc = none ↔ ∃ row ∈ rows, row = [] := by
  intro rows
  induction rows with
  | nil =>
    intro name grp acc
    simp [groupLoop]
  | cons row rest ih =>
    intro name grp acc
    cases row with
    | nil =>
      simp only [groupLoop, List.get?]
      refine ⟨fun _ => ⟨[], by simp⟩, fun _ => trivial⟩
    | cons c cs =>
      simp only [groupLoop, List.get?]
      have hne : (c :: cs) ≠ ([] : List String) := by simp
      split
      · rw [ih]
        simp
      · split
        · rw [ih]
          simp
        · rw [ih]
          simp

/-- C9: `group_calendar_data` unconditionally reads column 0 of every row:
it returns groups on every input whose rows are all nonempty, and on any
input containing a zero-length row it fails with an out-of-bounds access
(modelled as `none`) instead of returning groups. -/
theorem group_calendar_data_total_iff (data : List (List String)) :
    ((∀ row ∈ data, row ≠ []) → ∃ gs, group_calendar_data data = some gs) ∧
    ((∃ row ∈ data, row = []) → group_calendar_data data = none) := by
  constructor
  · intro h
    cases hg : group_calendar_data data with
    | none =>
      rw [group_calendar_data, groupLoop_eq_none_iff] at hg
      obtain ⟨r, hr, hre⟩ := hg
      exact absurd hre (h r hr)
    | some gs => exact ⟨gs, rfl⟩
  · intro h
    rw [group_calendar_data, groupLoop_eq_none_iff]
    exact h

theorem group_calendar_data_total_iff_witness :
    (∃ gs, group_calendar_data [["A"]] = some gs) ∧ group_calendar_data [[]] = none :=
  ⟨(group_calendar_data_total_iff [["A"]]).1 (by decide),
   (group_calendar_data_total_iff [[]]).2 ⟨[], by simp⟩⟩

theorem processDay_isSome (slots : Slots) (row : List String) (day_num day_col : Nat) :
    ∃ slots2, processDay slots row day_num day_col = some slots2 := by
  unfold processDay
  by_cases hlen : row.length ≤ day_col + 2
  · rw [if_pos hlen]
    exact ⟨slots, rfl⟩
  · rw [if_neg hlen]
    rw [List.get?_eq_get (show day_col < row.length by omega),
      List.get?_eq_get (show day_col + 1 < row.length by omega),
      List.get?_eq_get (show day_col + 2 < row.length by omega)]
    simp only [Option.some_bind]
    exact ⟨_, rfl⟩

theorem processRow_isSome (row : List String) :
    ∀ (mapping : List (Nat × Nat)) (slots : Slots),
    ∃ slots2, processRow slots row mapping = some slots2 := by
  intro mapping
  induction mapping with
  | nil => exact fun slots => ⟨slots, rfl⟩
  | cons dc rest ih =>
    intro slots
    obtain ⟨d, c⟩ := dc
    obtain ⟨s1, h1⟩ := processDay_isSome slots row d c
    obtain ⟨s2, h2⟩ := ih s1
    refine ⟨s2, ?_⟩
    simp only [processRow, h1, Option.some_bind]
    exact h2

theorem processRows_isSome :
    ∀ (rows : List (List String)) (slots : Slots),
    ∃ slots2, processRows slots rows = some slots2 := by
  intro rows
  induction rows with
  | nil => exact fun slots => ⟨slots, rfl⟩
  | cons row rest ih =>
    intro slots
    obtain ⟨s1, h1⟩ := processRow_isSome row days_mapping slots
    obtain ⟨s2, h2⟩ := ih s1
    refine ⟨s2, ?_⟩
    simp only [processRows, h1, Option.some_bind]
    exact h2

/-- C3: `process_opening_hours` is total: for every group (rows of any
lengths and contents) it never raises — every cell access is guarded by the
column-count check — and it always returns a (possibly empty) table. -/
theorem process_opening_hours_total (group : List (List String)) :
    ∃ t, process_opening_hours group = some t :=
  processRows_isSome group []

/-! ### The read-step guard (C2) -/

/-- C2 counterexample: a sheet with exactly one data row after removing the
two header rows (fewer than 2) is NOT aborted: `read_spreadsheet` returns
`True` and the data row is grouped and processed. -/
theorem read_spreadsheet_one_data_row :
    (([["h"], ["h"], ["A"]] : List (List String)).drop 2).length < 2 ∧
    read_spreadsheet [["h"], ["h"], ["A"]] = (true, [("A", [["A"]])]) :=
  ⟨by decide, by rfl⟩

/-- C2 amended: the abort-with-warning guard of `read_spreadsheet` is
applied to the raw row count BEFORE header removal: whenever the sheet has
fewer than 2 rows in total, the read step returns `False` and no groups are
produced. -/
theorem read_spreadsheet_short_input (data : List (List String))
    (h : data.length < 2) : read_spreadsheet data = (false, []) := by
  unfold read_spreadsheet
  rw [if_pos (Or.inr h)]

theorem read_spreadsheet_short_input_witness :
    ([["x"]] : List (List String)).length < 2 ∧ read_spreadsheet [["x"]] = (false, []) :=
  ⟨by decide, read_spreadsheet_short_input [["x"]] (by decide)⟩

/-! ### Day lists across keys (C1) -/

/-- C1 counterexample: two rows of one group give Monday two different
rules; the consolidated table then holds weekday 1 under TWO distinct keys
(the `not in` check only deduplicates within one key's day list), so a
weekday does not appear under at most one key, and the later conflicting
rule is not dropped. -/
theorem process_opening_hours_conflicting_day :
    process_opening_hours
        [["A", "", "09:00", "12:00", "30"], ["", "", "10:00", "11:00", "30"]] =
      some [(("09:00", "12:00", "30", "no"), [1]), (("10:00", "11:00", "30", "no"), [1])] ∧
    ¬ (List.countP (fun kv => decide (1 ∈ kv.2))
        ([(("09:00", "12:00", "30", "no"), [1]), (("10:00", "11:00", "30", "no"), [1])] :
          Slots) ≤ 1) :=
  ⟨by rfl, by decide⟩

theorem addDay_nodup :
    ∀ (s : Slots) (key : SlotKey) (d : Nat),
    (∀ k ds, (k, ds) ∈ s → ds.Nodup) →
    ∀ k ds, (k, ds) ∈ addDay s key d → ds.Nodup := by
  intro s key d
  induction s with
  | nil =>
    intro _ k ds hm
    simp only [addDay, List.mem_singleton] at hm
    injection hm with h1 h2
    subst h2
    simp
  | cons hd tl ih =>
    obtain ⟨k0, ds0⟩ := hd
    intro h k ds hm
    by_cases hk : k0 = key
    · simp only [addDay, if_pos hk] at hm
      rcases List.mem_cons.mp hm with heq | htl
      · have hds0 : ds0.Nodup := h k0 ds0 (List.mem_cons_self _ _)
        injection heq with h1 h2
        subst h2
        split
        · exact hds0
        · rename_i hd0
          simp [List.nodup_append, hds0, hd0]
      · exact h k ds (List.mem_cons_of_mem _ htl)
    · simp only [addDay, if_neg hk] at hm
      rcases List.mem_cons.mp hm with heq | htl
      · injection heq with h1 h2
        subst h2
        exact h k0 ds (List.mem_cons_self _ _)
      · exact ih (fun k2 ds2 hmem => h k2 ds2 (List.mem_cons_of_mem _ hmem)) k ds htl

theorem processDay_nodup {slots slots2 : Slots} {row : List String}
    {day_num day_col : Nat}
    (hstep : processDay slots row day_num day_col = some slots2)
    (h : ∀ k ds, (k, ds) ∈ slots → ds.Nodup) :
    ∀ k ds, (k, ds) ∈ slots2 → ds.Nodup := by
  unfold processDay at hstep
  by_cases hlen : row.length ≤ day_col + 2
  · rw [if_pos hlen] at hstep
    injection hstep with h2
    subst h2
    exact h
  · rw [if_neg hlen] at hstep
    rw [List.get?_eq_get (show day_col < row.length by omega),
      List.get?_eq_get (show day_col + 1 < row.length by omega),
      List.get?_eq_get (show day_col + 2 < row.length by omega)] at hstep
    simp only [Option.some_bind, Option.some.injEq] at hstep
    subst hstep
    split
    · exact h
    · split
      · exact h
      · exact addDay_nodup slots _ day_num h

theorem processRow_nodup {row : List String} :
    ∀ (mapping : List (Nat × Nat)) {slots slots2 : Slots},
    processRow slots row mapping = some slots2 →
    (∀ k ds, (k, ds) ∈ slots → ds.Nodup) →
    ∀ k ds, (k, ds) ∈ slots2 → ds.Nodup := by
  intro mapping
  induction mapping with
  | nil =>
    intro slots slots2 hstep h
    injection hstep with h2
    subst h2
    exact h
  | cons dc rest ih =>
    intro slots slots2 hstep h
    obtain ⟨d, c⟩ := dc
    obtain ⟨s1, h1⟩ := processDay_isSome slots row d c
    rw [processRow, h1, Option.some_bind] at hstep
    exact ih hstep (processDay_nodup h1 h)

theorem processRows_nodup :
    ∀ (rows : List (List String)) {slots slots2 : Slots},
    processRows slots rows = some slots2 →
    (∀ k ds, (k, ds) ∈ slots → ds.Nodup) →
    ∀ k ds, (k, ds) ∈ slots2 → ds.Nodup := by
  intro rows
  induction rows with
  | nil =>
    intro slots slots2 hstep h
    injection hstep with h2
    subst h2
    exact h
  | cons row rest ih =>
    intro slots slots2 hstep h
    obtain ⟨s1, h1⟩ := processRow_isSome row days_mapping slots
    rw [processRows, h1, Option.some_bind] at hstep
    exact ih hstep (processRow_nodup days_mapping h1 h)

/-- C1 amended: within any single key of the table returned by
`process_opening_hours`, each weekday number appears at most once (the
`not in` check makes the per-key add idempotent); but a weekday may appear
under several distinct keys, the later conflicting rule creating its own
entry rather than being dropped (see the counterexample). -/
theorem process_opening_hours_nodup_days (group : List (List String)) (t : Slots)
    (ht : process_opening_hours group = some t) :
    ∀ k ds, (k, ds) ∈ t → ds.Nodup :=
  processRows_nodup group ht (fun k ds hm => by simp at hm)

theorem process_opening_hours_nodup_days_witness :
    process_opening_hours [["A", "", "09:00", "12:00", "30"]] =
      some [(("09:00", "12:00", "30", "no"), [1])] ∧
    ([1] : List Nat).Nodup :=
  ⟨by rfl,
   process_opening_hours_nodup_days [["A", "", "09:00", "12:00", "30"]]
     [(("09:00", "12:00", "30", "no"), [1])] (by rfl)
     ("09:00", "12:00", "30", "no") [1] (by simp)⟩

/-! ### Per-day validation behaviour (C6, C7) and end-to-end (C4) -/

/-- C6: a day band whose (stripped) begin or end cell fails
`is_valid_time` — neither `"Chiuso"` (case-insensitively) nor a 24-hour
`HH:MM` time with hour 0-23 and minute 0-59, e.g. `"25:61"`, `"25:00"`,
`"9:30pm"` — is skipped, leaving the table unchanged; and sibling valid
days of the same row are still processed: a row with invalid Monday
`"25:61"` and valid Tuesday still yields Tuesday's entry. -/
theorem processDay_invalid_time_skip :
    (∀ (slots : Slots) (row : List String) (day_num day_col : Nat),
      day_col + 2 < row.length →
      (is_valid_time (pystrip (row.getD day_col "")) = false ∨
       is_valid_time (pystrip (row.getD (day_col + 1) "")) = false) →
      processDay slots row day_num day_col = some slots) ∧
    process_opening_hours [["A", "", "25:61", "12:00", "30", "09:00", "12:00", "30"]] =
      some [(("09:00", "12:00", "30", "no"), [2])] := by
  constructor
  · intro slots row day_num day_col hlen hinv
    have h0 : day_col < row.length := by omega
    have h1 : day_col + 1 < row.length := by omega
    have h2 : day_col + 2 < row.length := hlen
    have g0 : row.getD day_col "" = row.get ⟨day_col, h0⟩ := by
      rw [List.getD_eq_get?, List.get?_eq_get h0]
      rfl
    have g1 : row.getD (day_col + 1) "" = row.get ⟨day_col + 1, h1⟩ := by
      rw [List.getD_eq_get?, List.get?_eq_get h1]
      rfl
    rw [g0, g1] at hinv
    unfold processDay
    rw [if_neg (by omega), List.get?_eq_get h0, List.get?_eq_get h1, List.get?_eq_get h2]
    simp only [Option.some_bind]
    refine congrArg some ?_
    split
    · rfl
    · split
      · rfl
      · rename_i hval
        exfalso
        obtain ⟨hA, hB⟩ := not_not.mp hval
        rcases hinv with hb | he
        · rw [hb] at hA
          exact absurd hA (by decide)
        · rw [he] at hB
          exact absurd hB (by decide)
  · rfl

theorem processDay_invalid_time_skip_witness :
    2 + 2 < (["A", "", "25:61", "12:00", "30"] : List String).length ∧
    processDay [] ["A", "", "25:61", "12:00", "30"] 1 2 = some [] :=
  ⟨by decide,
   processDay_invalid_time_skip.1 [] ["A", "", "25:61", "12:00", "30"] 1 2
     (by decide) (Or.inl (by decide))⟩

/-- The weekday just added by `addDay` is in the day list stored under its
key. -/
theorem mem_daysLookup_addDay :
    ∀ (s : Slots) (key : SlotKey) (d : Nat), d ∈ daysLookup (addDay s key d) key := by
  intro s key d
  induction s with
  | nil => simp [addDay, daysLookup]
  | cons hd tl ih =>
    obtain ⟨k0, ds0⟩ := hd
    by_cases hk : k0 = key
    · simp only [addDay, if_pos hk, daysLookup]
      split
      · assumption
      · simp
    · simp only [addDay, if_neg hk, daysLookup]
      exact ih

/-- C7: for a day band whose begin and end cells pass all checks, a
meeting-duration cell that is not a non-negative integer literal defaults
to 30 and the day is still included under the key built with `"30"`; a
digit-string cell contributes its own value.  The key's duration component
is `toString (parseNat m)` when `pyisdigit m` and `"30"` otherwise, and the
day number is in the table under that key. -/
theorem processDay_duration_default
    (slots : Slots) (row : List String) (day_num day_col : Nat)
    (hlen : day_col + 2 < row.length)
    (hb : pystrip (row.getD day_col "") ≠ "Chiuso")
    (he : pystrip (row.getD (day_col + 1) "") ≠ "Chiuso")
    (hbne : pystrip (row.getD day_col "") ≠ "")
    (hene : pystrip (row.getD (day_col + 1) "") ≠ "")
    (hvb : is_valid_time (pystrip (row.getD day_col "")) = true)
    (hve : is_valid_time (pystrip (row.getD (day_col + 1) "")) = true) :
    processDay slots row day_num day_col =
      some (addDay slots
        (pystrip (row.getD day_col ""), pystrip (row.getD (day_col + 1) ""),
         if pyisdigit (pystrip (row.getD (day_col + 2) "")) then
           toString (parseNat (pystrip (row.getD (day_col + 2) ""))) else "30",
         "no") day_num) ∧
    day_num ∈ daysLookup
      (addDay slots
        (pystrip (row.getD day_col ""), pystrip (row.getD (day_col + 1) ""),
         if pyisdigit (pystrip (row.getD (day_col + 2) "")) then
           toString (parseNat (pystrip (row.getD (day_col + 2) ""))) else "30",
         "no") day_num)
      (pystrip (row.getD day_col ""), pystrip (row.getD (day_col + 1) ""),
       if pyisdigit (pystrip (row.getD (day_col + 2) "")) then
         toString (parseNat (pystrip (row.getD (day_col + 2) ""))) else "30",
       "no") := by
  have h0 : day_col < row.length := by omega
  have h1 : day_col + 1 < row.length := by omega
  have h2 : day_col + 2 < row.length := hlen
  have g0 : row.getD day_col "" = row.get ⟨day_col, h0⟩ := by
    rw [List.getD_eq_get?, List.get?_eq_get h0]
    rfl
  have g1 : row.getD (day_col + 1) "" = row.get ⟨day_col + 1, h1⟩ := by
    rw [List.getD_eq_get?, List.get?_eq_get h1]
    rfl
  have g2 : row.getD (day_col + 2) "" = row.get ⟨day_col + 2, h2⟩ := by
    rw [List.getD_eq_get?, List.get?_eq_get h2]
    rfl
  rw [g0] at hb hbne hvb
  rw [g1] at he hene hve
  rw [g0, g1, g2]
  have hkey :
      (if pyisdigit (pystrip (row.get ⟨day_col + 2, h2⟩)) then
        toString (parseNat (pystrip (row.get ⟨day_col + 2, h2⟩))) else "30") =
      toString (if pyisdigit (pystrip (row.get ⟨day_col + 2, h2⟩)) then
        parseNat (pystrip (row.get ⟨day_col + 2, h2⟩)) else 30) := by
    split <;> rfl
  constructor
  · unfold processDay
    rw [if_neg (by omega), List.get?_eq_get h0, List.get?_eq_get h1, List.get?_eq_get h2]
    simp only [Option.some_bind]
    rw [if_neg (fun h =>
          h.elim hb (fun h2 => h2.elim he (fun h3 => h3.elim hbne hene))),
      if_neg (not_not_intro ⟨hvb, hve⟩), hkey]
  · rw [hkey]
    exact mem_daysLookup_addDay slots _ day_num

theorem processDay_duration_default_witness :
    processDay [] ["A", "", "09:00", "12:00", "abc"] 1 2 =
      some [(("09:00", "12:00", "30", "no"), [1])] ∧
    1 ∈ daysLookup [(("09:00", "12:00", "30", "no"), [1])] ("09:00", "12:00", "30", "no") := by
  have h := processDay_duration_default [] ["A", "", "09:00", "12:00", "abc"] 1 2
    (by decide) (by decide) (by decide) (by decide) (by decide) (by decide) (by decide)
  exact ⟨h.1, h.2⟩

/-- C4: a two-row group where row 1 carries `"09:00"`, `"12:00"`, `"30"` in
the Monday columns 2..4 and row 2 carries the same triple in the Tuesday
columns 5..7 consolidates to one slot, and rule construction yields exactly
one `OpeningHoursRule` with `days_of_week = [1, 2]` (sorted ascending),
`begin_hour = "09:00"`, `end_hour = "12:00"`, `meeting_minutes = 30`. -/
theorem consolidation_end_to_end (start_date end_date : String) :
    process_opening_hours
        [["A", "", "09:00", "12:00", "30"],
         ["", "", "Chiuso", "Chiuso", "Chiuso", "09:00", "12:00", "30"]] =
      some [(("09:00", "12:00", "30", "no"), [1, 2])] ∧
    make_opening_hours_rules start_date end_date
        [(("09:00", "12:00", "30", "no"), [1, 2])] =
      [{ name := "Orario 09:00-12:00", start_date := start_date, end_date := end_date,
         days_of_week := [1, 2], begin_hour := "09:00", end_hour := "12:00",
         is_moderated := false, meeting_minutes := 30, interval_minutes := 0,
         meeting_queue := 1 }] :=
  ⟨by rfl, by rfl⟩

end ConfigSDC
